import Mathlib

/-!
Verification of the AfriLend loan/pool accounting core.

The definitions below are a shallow embedding of the repository's code:
* `AfriLend.Loans` embeds `src/contracts/AfriLendLoanManager.sol`
  (Solidity 0.8 checked arithmetic: `uint256` is modelled as `Nat`;
  every value reachable through the embedded operations stays far below
  `2^256`, and the one place where checked subtraction can actually
  underflow — the reputation contract — is modelled explicitly).
* `AfriLend.Pools` embeds the `LenderPool` contract.
* `AfriLend.Reputation` embeds `src/contracts/Reputation.sol`.
* `AfriLend.Server` embeds the Express controller `cancelLoan`/`fundLoan`
  paths and the Firestore `Loan` model methods.
* `AfriLend.Backend` embeds `src/backend/src/services/loanService.ts`
  (JS numbers modelled as `ℚ`; the concrete inputs used in theorems are
  ones on which IEEE double arithmetic is exact).
-/

namespace AfriLend

namespace Loans

/-- Addresses are identified by a natural number. -/
abbrev Addr := Nat

/-- The `enum LoanStatus` from `ILoanManager.sol`. -/
inductive LoanStatus where
  | Pending
  | Funded
  | Active
  | Repaid
  | Defaulted
deriving DecidableEq, Repr

/-- The `struct Loan` from `ILoanManager.sol`; the `lenderContributions`
mapping is a total function defaulting to `0`, as Solidity mappings do. -/
structure Loan where
  id : Nat
  borrower : Addr
  amount : Nat
  fundedAmount : Nat
  interestRate : Nat
  duration : Nat
  createdAt : Nat
  dueDate : Nat
  purpose : String
  status : LoanStatus
  lenders : List Addr
  lenderContributions : Addr → Nat

/-- Errors raised by the loan manager's `require` statements. -/
inductive LoanErr where
  | InvalidAmount
  | InvalidRate
  | InvalidDuration
  | EmptyPurpose
  | NotFundable
  | NonPositiveAmount
  | OverFunding
  | NotBorrower
  | NotActive
  | InsufficientRepayment
  | LoanExpired
deriving DecidableEq, Repr

/-- Constant `MIN_LOAN_AMOUNT = 0.01 ether`. -/
def MIN_LOAN_AMOUNT : Nat := 10 ^ 16

/-- Constant `MAX_LOAN_AMOUNT = 100 ether`. -/
def MAX_LOAN_AMOUNT : Nat := 100 * 10 ^ 18

/-- Constant `MIN_INTEREST_RATE = 5` (the source comment declares this to be 5%). -/
def MIN_INTEREST_RATE : Nat := 5

/-- Constant `MAX_INTEREST_RATE = 50` (the source comment declares this to be 50%). -/
def MAX_INTEREST_RATE : Nat := 50

/-- Constant `MIN_DURATION = 30 days` in seconds. -/
def MIN_DURATION : Nat := 30 * 86400

/-- Constant `MAX_DURATION = 365 days` in seconds. -/
def MAX_DURATION : Nat := 365 * 86400

/-- One year (`365 days`) in seconds, the divisor base used by `calculateRepaymentAmount`. -/
def SECONDS_PER_YEAR : Nat := 365 * 86400

/-- Function `createLoan` from `AfriLendLoanManager.sol`, lines 50-80.
The loan id and the borrower-index side effect are global bookkeeping
that no claim depends on; the per-loan state is embedded exactly. -/
def createLoan (borrower : Addr) (amount interestRate duration : Nat)
    (purpose : String) (now : Nat) : Except LoanErr Loan :=
  if ¬ (MIN_LOAN_AMOUNT ≤ amount ∧ amount ≤ MAX_LOAN_AMOUNT) then
    .error .InvalidAmount
  else if ¬ (MIN_INTEREST_RATE ≤ interestRate ∧ interestRate ≤ MAX_INTEREST_RATE) then
    .error .InvalidRate
  else if ¬ (MIN_DURATION ≤ duration ∧ duration ≤ MAX_DURATION) then
    .error .InvalidDuration
  else if purpose.length = 0 then
    .error .EmptyPurpose
  else
    .ok { id := 0
          borrower := borrower
          amount := amount
          fundedAmount := 0
          interestRate := interestRate
          duration := duration
          createdAt := now
          dueDate := now + duration
          purpose := purpose
          status := .Pending
          lenders := []
          lenderContributions := fun _ => 0 }

/-- Function `fundLoan` from `AfriLendLoanManager.sol`, lines 86-114.
`value` is `msg.value`; the lender is appended to `lenders` only when the
linear scan does not find it, exactly as in the source loop. -/
def fundLoan (l : Loan) (lender : Addr) (value : Nat) : Except LoanErr Loan :=
  if l.status ≠ .Pending then .error .NotFundable
  else if value = 0 then .error .NonPositiveAmount
  else if l.amount - l.fundedAmount < value then .error .OverFunding
  else
    let fundedAmount := l.fundedAmount + value
    let contribs := fun a =>
      if a = lender then l.lenderContributions a + value else l.lenderContributions a
    let lenders := if lender ∈ l.lenders then l.lenders else l.lenders ++ [lender]
    let status := if l.amount ≤ fundedAmount then LoanStatus.Active else l.status
    .ok { l with
            fundedAmount := fundedAmount
            lenderContributions := contribs
            lenders := lenders
            status := status }

/-- Function `calculateRepaymentAmount` from `AfriLendLoanManager.sol`, lines 220-225:
`principal + (principal * interestRate * duration) / (365 days * 10000)`. -/
def calculateRepaymentAmount (l : Loan) : Nat :=
  l.fundedAmount + l.fundedAmount * l.interestRate * l.duration / (SECONDS_PER_YEAR * 10000)

/-- Function `repayLoan` from `AfriLendLoanManager.sol`, lines 120-144.
Returns the updated loan, the list of per-lender payouts made by the
distribution loop (`(contribution * repaymentAmount) / fundedAmount` each),
and the excess returned to the borrower. -/
def repayLoan (l : Loan) (caller : Addr) (value now : Nat) :
    Except LoanErr (Loan × List (Addr × Nat) × Nat) :=
  if caller ≠ l.borrower then .error .NotBorrower
  else if l.status ≠ .Active then .error .NotActive
  else if value < calculateRepaymentAmount l then .error .InsufficientRepayment
  else if l.dueDate < now then .error .LoanExpired
  else
    .ok ({ l with status := .Repaid },
         l.lenders.map (fun a =>
           (a, l.lenderContributions a * calculateRepaymentAmount l / l.fundedAmount)),
         value - calculateRepaymentAmount l)

/-- Loan states reachable through the contract's operations:
a freshly created loan, or the successful result of `fundLoan` or
`repayLoan` on a reachable loan. -/
inductive Reaches : Loan → Prop where
  | created {borrower amount rate duration purpose now l} :
      createLoan borrower amount rate duration purpose now = .ok l → Reaches l
  | funded {l lender value l'} :
      Reaches l → fundLoan l lender value = .ok l' → Reaches l'
  | repaid {l caller value now l' payouts excess} :
      Reaches l → repayLoan l caller value now = .ok (l', payouts, excess) →
      Reaches l'

/-- The inductive invariant maintained by every loan operation. -/
def LoanInv (l : Loan) : Prop :=
  l.fundedAmount ≤ l.amount ∧
  0 < l.amount ∧
  (l.status = .Pending → l.fundedAmount < l.amount) ∧
  ((l.status = .Active ∨ l.status = .Repaid) → l.fundedAmount = l.amount) ∧
  (l.status = .Pending ∨ l.status = .Active ∨ l.status = .Repaid) ∧
  l.lenders.Nodup ∧
  (l.lenders.map l.lenderContributions).sum = l.fundedAmount ∧
  (∀ a, a ∉ l.lenders → l.lenderContributions a = 0)

/-- Updating a function at a member of a duplicate-free list shifts the
sum over the list by exactly the added value. -/
theorem sum_map_add_at_mem (xs : List Addr) (f : Addr → Nat) (a : Addr) (v : Nat)
    (hnd : xs.Nodup) (ha : a ∈ xs) :
    (xs.map fun x => if x = a then f x + v else f x).sum = (xs.map f).sum + v := by
  induction xs with
  | nil => cases ha
  | cons b xs ih =>
    rcases List.nodup_cons.mp hnd with ⟨hb, hnd'⟩
    rcases List.mem_cons.mp ha with rfl | ha'
    · have hmap : (xs.map fun x => if x = a then f x + v else f x) = xs.map f := by
        refine List.map_congr_left fun x hx => ?_
        have hxa : x ≠ a := fun e => hb (e ▸ hx)
        simp [hxa]
      simp only [List.map_cons, List.sum_cons, hmap, if_true]
      omega
    · have hba : b ≠ a := fun e => hb (e ▸ ha')
      simp only [List.map_cons, List.sum_cons, if_neg hba]
      rw [ih hnd' ha']
      omega

/-- Updating a function only at a point outside the list leaves the mapped
list unchanged. -/
theorem map_add_at_not_mem (xs : List Addr) (f : Addr → Nat) (a : Addr) (v : Nat)
    (ha : a ∉ xs) :
    (xs.map fun x => if x = a then f x + v else f x) = xs.map f := by
  refine List.map_congr_left fun x hx => ?_
  have hxa : x ≠ a := fun e => ha (e ▸ hx)
  simp [hxa]

/-- Invariant preservation: every reachable loan satisfies `LoanInv`. -/
theorem reaches_loanInv : ∀ l, Reaches l → LoanInv l := by
  intro l hl
  induction hl with
  | created h =>
    rename_i borrower amount rate duration purpose now l
    unfold createLoan at h
    split at h
    · cases h
    split at h
    · cases h
    split at h
    · cases h
    split at h
    · cases h
    rename_i h1 _ _ _
    rw [not_not] at h1
    injection h with h
    subst h
    have hmin : (0:Nat) < MIN_LOAN_AMOUNT := by norm_num [MIN_LOAN_AMOUNT]
    have h1' := h1.1
    unfold LoanInv
    dsimp only
    refine ⟨Nat.zero_le _, by omega, fun _ => by omega, ?_, Or.inl rfl,
      List.nodup_nil, rfl, fun a _ => rfl⟩
    rintro (h | h) <;> cases h
  | funded hR h ih =>
    rename_i l lender value l'
    obtain ⟨hle, hpos, hlt, hfull, hst, hnd, hsum, hout⟩ := ih
    unfold fundLoan at h
    split at h
    · cases h
    split at h
    · cases h
    split at h
    · cases h
    rename_i hpend hval hcap
    rw [not_not] at hpend
    rw [Nat.not_lt] at hcap
    have hlt' := hlt hpend
    injection h with h
    subst h
    unfold LoanInv
    dsimp only
    by_cases hmem : lender ∈ l.lenders
    · rw [if_pos hmem]
      refine ⟨by omega, hpos, ?_, ?_, ?_, hnd, ?_, ?_⟩
      · split
        · intro hc; cases hc
        · intro _; rename_i hnf; omega
      · split
        · intro _; omega
        · rw [hpend]; rintro (hc | hc) <;> cases hc
      · split
        · exact Or.inr (Or.inl rfl)
        · exact Or.inl hpend
      · rw [sum_map_add_at_mem l.lenders l.lenderContributions lender value hnd hmem, hsum]
      · intro a ha
        have haa : a ≠ lender := fun e => ha (e ▸ hmem)
        rw [if_neg haa]
        exact hout a ha
    · rw [if_neg hmem]
      refine ⟨by omega, hpos, ?_, ?_, ?_, ?_, ?_, ?_⟩
      · split
        · intro hc; cases hc
        · intro _; rename_i hnf; omega
      · split
        · intro _; omega
        · rw [hpend]; rintro (hc | hc) <;> cases hc
      · split
        · exact Or.inr (Or.inl rfl)
        · exact Or.inl hpend
      · exact List.Nodup.append hnd (List.nodup_singleton _)
          (List.disjoint_singleton.mpr hmem)
      · rw [List.map_append, List.sum_append,
            map_add_at_not_mem l.lenders l.lenderContributions lender value hmem, hsum]
        simp only [List.map_cons, List.map_nil, List.sum_cons, List.sum_nil, if_true]
        rw [hout lender hmem]
        omega
      · intro a ha
        rw [List.mem_append, not_or, List.mem_singleton] at ha
        rw [if_neg ha.2]
        exact hout a ha.1
  | repaid hR h ih =>
    rename_i l caller value now l' payouts excess
    obtain ⟨hle, hpos, hlt, hfull, hst, hnd, hsum, hout⟩ := ih
    unfold repayLoan at h
    split at h
    · cases h
    split at h
    · cases h
    split at h
    · cases h
    split at h
    · cases h
    rename_i hact _ _
    rw [not_not] at hact
    injection h with h
    injection h with h hrest
    subst h
    unfold LoanInv
    dsimp only
    exact ⟨hle, hpos, fun hc => absurd hc (by decide), fun _ => hfull (Or.inl hact),
      Or.inr (Or.inr rfl), hnd, hsum, hout⟩

/-- Inversion for `fundLoan`: a successful call implies the guards held
and describes the updated loan exactly. -/
theorem fundLoan_ok {l : Loan} {lender : Addr} {value : Nat} {l' : Loan}
    (h : fundLoan l lender value = .ok l') :
    l.status = .Pending ∧ 0 < value ∧ value ≤ l.amount - l.fundedAmount ∧
    l' = { l with
            fundedAmount := l.fundedAmount + value
            lenderContributions := fun a =>
              if a = lender then l.lenderContributions a + value
              else l.lenderContributions a
            lenders := if lender ∈ l.lenders then l.lenders else l.lenders ++ [lender]
            status := if l.amount ≤ l.fundedAmount + value then LoanStatus.Active
                      else l.status } := by
  unfold fundLoan at h
  split at h
  · cases h
  split at h
  · cases h
  split at h
  · cases h
  rename_i h1 h2 h3
  rw [not_not] at h1
  rw [Nat.not_lt] at h3
  injection h with h
  exact ⟨h1, Nat.pos_of_ne_zero h2, h3, h.symm⟩

/-- A `fundLoan` that would overshoot the remaining capacity of a pending
loan is rejected. -/
theorem fundLoan_overshoot {l : Loan} {lender : Addr} {value : Nat}
    (hp : l.status = .Pending) (hv : l.amount - l.fundedAmount < value) :
    fundLoan l lender value = .error .OverFunding := by
  have hv0 : value ≠ 0 := by omega
  unfold fundLoan
  rw [if_neg (by simp [hp]), if_neg hv0, if_pos hv]

/-- Inversion for `repayLoan`: a successful call implies every guard held
and describes the payout list and the updated loan exactly. -/
theorem repayLoan_ok {l : Loan} {caller value now : Nat} {l' : Loan}
    {payouts : List (Addr × Nat)} {excess : Nat}
    (h : repayLoan l caller value now = .ok (l', payouts, excess)) :
    caller = l.borrower ∧ l.status = .Active ∧
    calculateRepaymentAmount l ≤ value ∧ now ≤ l.dueDate ∧
    l' = { l with status := .Repaid } ∧
    payouts = l.lenders.map (fun a =>
      (a, l.lenderContributions a * calculateRepaymentAmount l / l.fundedAmount)) ∧
    excess = value - calculateRepaymentAmount l := by
  unfold repayLoan at h
  split at h
  · cases h
  split at h
  · cases h
  split at h
  · cases h
  split at h
  · cases h
  rename_i h1 h2 h3 h4
  rw [not_not] at h1 h2
  rw [Nat.not_lt] at h3 h4
  injection h with h
  injection h with ha hrest
  injection hrest with hb hc
  exact ⟨h1, h2, h3, h4, ha.symm, hb.symm, hc.symm⟩

/-- Floor division term-by-term never beats dividing the whole sum. -/
theorem sum_map_div_le (xs : List Nat) (C : Nat) :
    (xs.map (· / C)).sum ≤ xs.sum / C := by
  induction xs with
  | nil => simp
  | cons a xs ih =>
    simp only [List.map_cons, List.sum_cons]
    rcases Nat.eq_zero_or_pos C with rfl | hC
    · simp
    · have step : a / C + xs.sum / C ≤ (a + xs.sum) / C := by
        refine (Nat.le_div_iff_mul_le hC).mpr ?_
        have h1 := Nat.div_mul_le_self a C
        have h2 := Nat.div_mul_le_self xs.sum C
        calc (a / C + xs.sum / C) * C = a / C * C + xs.sum / C * C := by ring
          _ ≤ a + xs.sum := Nat.add_le_add h1 h2
      calc a / C + (xs.map (· / C)).sum ≤ a / C + xs.sum / C := by omega
        _ ≤ (a + xs.sum) / C := step

/-- Each floor division loses strictly less than one unit of the divisor. -/
theorem sum_le_floor_sum_mul (xs : List Nat) (C : Nat) (hC : 0 < C) :
    xs.sum ≤ ((xs.map (· / C)).sum + xs.length) * C := by
  induction xs with
  | nil => simp
  | cons a xs ih =>
    have ha : a < (a / C + 1) * C := (Nat.div_lt_iff_lt_mul hC).mp (Nat.lt_succ_self _)
    simp only [List.map_cons, List.sum_cons, List.length_cons]
    refine le_of_lt ?_
    calc a + xs.sum < (a / C + 1) * C + ((xs.map (· / C)).sum + xs.length) * C :=
          add_lt_add_of_lt_of_le ha ih
      _ = (a / C + (xs.map (· / C)).sum + (xs.length + 1)) * C := by ring

/-- Strict version of `sum_le_floor_sum_mul` for a nonempty list. -/
theorem sum_lt_floor_sum_mul (xs : List Nat) (C : Nat) (hC : 0 < C) (hne : xs ≠ []) :
    xs.sum < ((xs.map (· / C)).sum + xs.length) * C := by
  match xs, hne with
  | a :: xs, _ =>
    have ha : a < (a / C + 1) * C := (Nat.div_lt_iff_lt_mul hC).mp (Nat.lt_succ_self _)
    simp only [List.map_cons, List.sum_cons, List.length_cons]
    calc a + xs.sum < (a / C + 1) * C + ((xs.map (· / C)).sum + xs.length) * C :=
          add_lt_add_of_lt_of_le ha (sum_le_floor_sum_mul xs C hC)
      _ = (a / C + (xs.map (· / C)).sum + (xs.length + 1)) * C := by ring

/-- Bounds for a proportional split `⌊f a * R / F⌋` over participants whose
contributions sum to the denominator `F`. -/
theorem proportional_split_bounds (lenders : List Addr) (f : Addr → Nat) (R F : Nat)
    (hF : 0 < F) (hsum : (lenders.map f).sum = F) :
    (lenders.map fun a => f a * R / F).sum ≤ R ∧
    (lenders ≠ [] → R < (lenders.map fun a => f a * R / F).sum + lenders.length) := by
  have hcomp : (lenders.map fun a => f a * R / F) =
      ((lenders.map fun a => f a * R).map (· / F)) := by
    rw [List.map_map]
    rfl
  have hxs : (lenders.map fun a => f a * R).sum = F * R := by
    rw [List.sum_map_mul_right, hsum, Nat.mul_comm]
  constructor
  · rw [hcomp]
    calc ((lenders.map fun a => f a * R).map (· / F)).sum
        ≤ (lenders.map fun a => f a * R).sum / F := sum_map_div_le _ _
      _ = F * R / F := by rw [hxs]
      _ = R := by rw [Nat.mul_comm, Nat.mul_div_cancel R hF]
  · intro hne
    have hne' : (lenders.map fun a => f a * R) ≠ [] := by
      simpa using hne
    have h := sum_lt_floor_sum_mul (lenders.map fun a => f a * R) F hF hne'
    rw [hxs, List.length_map, Nat.mul_comm F R] at h
    have hlt : R < ((lenders.map fun a => f a * R).map (· / F)).sum + lenders.length :=
      lt_of_mul_lt_mul_right h (Nat.zero_le F)
    rw [hcomp]
    exact hlt

/-- A freshly created minimal loan, used to instantiate theorems. -/
def loanA : Loan :=
  { id := 0, borrower := 7, amount := MIN_LOAN_AMOUNT, fundedAmount := 0,
    interestRate := 5, duration := MIN_DURATION, createdAt := 0,
    dueDate := 0 + MIN_DURATION, purpose := "s", status := .Pending,
    lenders := [], lenderContributions := fun _ => 0 }

theorem loanA_eq : createLoan 7 MIN_LOAN_AMOUNT 5 MIN_DURATION ("s") 0 = .ok loanA := rfl

theorem loanA_reached : Reaches loanA := Reaches.created loanA_eq

/-- Loan `loanA` after a single full funding by lender 11: an active loan. -/
def loanAF : Loan :=
  { id := 0, borrower := 7, amount := MIN_LOAN_AMOUNT,
    fundedAmount := 0 + MIN_LOAN_AMOUNT, interestRate := 5, duration := MIN_DURATION,
    createdAt := 0, dueDate := 0 + MIN_DURATION, purpose := "s", status := .Active,
    lenders := [11],
    lenderContributions := fun a => if a = 11 then 0 + MIN_LOAN_AMOUNT else 0 }

theorem loanAF_eq : fundLoan loanA 11 MIN_LOAN_AMOUNT = .ok loanAF := rfl

theorem loanAF_reached : Reaches loanAF := Reaches.funded loanA_reached loanAF_eq

/-- A double-size loan half-funded by lender 11, still pending. -/
def loanB : Loan :=
  { id := 0, borrower := 7, amount := 2 * MIN_LOAN_AMOUNT,
    fundedAmount := 0 + MIN_LOAN_AMOUNT, interestRate := 5, duration := MIN_DURATION,
    createdAt := 0, dueDate := 0 + MIN_DURATION, purpose := "s", status := .Pending,
    lenders := [11],
    lenderContributions := fun a => if a = 11 then 0 + MIN_LOAN_AMOUNT else 0 }

/-- C2: for every reachable loan, `fundedAmount` never exceeds `amount`;
a successful `fundLoan` happens only on a pending, strictly under-funded loan
and leaves the loan active exactly when the funded amount has reached the
requested amount (so the transition to `Active` happens exactly when
`fundedAmount` first reaches `amount`); an over-shooting contribution on a
pending loan is rejected with `OverFunding`; and the only step out of
`Active` is `repayLoan`, which moves the loan to `Repaid` (there is no
operation moving any loan back to `Pending`, and no `Defaulted` transition
exists in the contract). -/
theorem loan_funding_state_machine :
    (∀ l, Reaches l → l.fundedAmount ≤ l.amount) ∧
    (∀ l lender value l', Reaches l → fundLoan l lender value = .ok l' →
      l.status = .Pending ∧ l.fundedAmount < l.amount ∧
      (l'.status = .Active ↔ l'.fundedAmount = l'.amount) ∧
      (¬ l'.status = .Active → l'.status = .Pending)) ∧
    (∀ l lender value, l.status = .Pending → l.amount - l.fundedAmount < value →
      fundLoan l lender value = .error .OverFunding) ∧
    (∀ l lender value l', fundLoan l lender value = .ok l' → l.status = .Pending) ∧
    (∀ l caller value now l' payouts excess,
      repayLoan l caller value now = .ok (l', payouts, excess) →
      l.status = .Active ∧ l'.status = .Repaid) := by
  refine ⟨fun l h => (reaches_loanInv l h).1, ?_, ?_, ?_, ?_⟩
  · intro l lender value l' hR h
    obtain ⟨hp, hv, hcap, hl'⟩ := fundLoan_ok h
    obtain ⟨hle, hpos, hlt, _, _, _, _, _⟩ := reaches_loanInv l hR
    have hlt' := hlt hp
    subst hl'
    refine ⟨hp, hlt', ?_, ?_⟩
    · dsimp only
      by_cases hc : l.amount ≤ l.fundedAmount + value
      · rw [if_pos hc]
        exact ⟨fun _ => by omega, fun _ => rfl⟩
      · rw [if_neg hc, hp]
        exact ⟨fun e => absurd e (by decide), fun e => absurd e (by omega)⟩
    · dsimp only
      by_cases hc : l.amount ≤ l.fundedAmount + value
      · rw [if_pos hc]
        intro hcon
        exact absurd rfl hcon
      · rw [if_neg hc, hp]
        intro _
        rfl
  · intro l lender value hp hv
    exact fundLoan_overshoot hp hv
  · intro l lender value l' h
    exact (fundLoan_ok h).1
  · intro l caller value now l' payouts excess h
    obtain ⟨_, hact, _, _, hl', _, _⟩ := repayLoan_ok h
    exact ⟨hact, by rw [hl']⟩

theorem loan_funding_state_machine_witness :
    loanA.fundedAmount ≤ loanA.amount ∧
    fundLoan loanA 3 (MIN_LOAN_AMOUNT + 1) = .error .OverFunding :=
  ⟨loan_funding_state_machine.1 loanA loanA_reached,
   loan_funding_state_machine.2.2.1 loanA 3 (MIN_LOAN_AMOUNT + 1) rfl (by decide)⟩

/-- C3: every reachable loan has a duplicate-free lender list whose
recorded contributions sum to `fundedAmount`, and a repeat contribution from
a lender already in the list grows that lender's entry without appending a
second list entry. -/
theorem lender_ledger_nodup_sum :
    (∀ l, Reaches l → l.lenders.Nodup ∧
      (l.lenders.map l.lenderContributions).sum = l.fundedAmount) ∧
    (∀ l lender value l', fundLoan l lender value = .ok l' → lender ∈ l.lenders →
      l'.lenders = l.lenders ∧
      l'.lenderContributions lender = l.lenderContributions lender + value) := by
  constructor
  · intro l h
    obtain ⟨_, _, _, _, _, hnd, hsum, _⟩ := reaches_loanInv l h
    exact ⟨hnd, hsum⟩
  · intro l lender value l' h hmem
    obtain ⟨_, _, _, hl'⟩ := fundLoan_ok h
    subst hl'
    constructor
    · dsimp only
      rw [if_pos hmem]
    · dsimp only
      rw [if_pos rfl]

theorem lender_ledger_nodup_sum_witness :
    loanAF.lenders.Nodup ∧
    (∃ l', fundLoan loanB 11 MIN_LOAN_AMOUNT = .ok l' ∧ l'.lenders = loanB.lenders) := by
  refine ⟨(lender_ledger_nodup_sum.1 loanAF loanAF_reached).1, _, rfl, ?_⟩
  exact (lender_ledger_nodup_sum.2 loanB 11 MIN_LOAN_AMOUNT _ rfl (by decide)).1

/-- C1 (amended): on every reachable loan a successful `repayLoan` pays
each lender `⌊contribution * repaymentAmount / fundedAmount⌋`; the payouts
sum to at most `calculateRepaymentAmount`, and the shortfall is smaller than
the number of lenders. Exact equality fails in general: the distribution
loop floors every share and no one receives the remainder
(see the counterexample). -/
theorem repay_distribution_bounds (l : Loan) (caller value now : Nat)
    (l' : Loan) (payouts : List (Addr × Nat)) (excess : Nat)
    (hR : Reaches l)
    (h : repayLoan l caller value now = .ok (l', payouts, excess)) :
    payouts = l.lenders.map (fun a =>
      (a, l.lenderContributions a * calculateRepaymentAmount l / l.fundedAmount)) ∧
    (payouts.map Prod.snd).sum ≤ calculateRepaymentAmount l ∧
    calculateRepaymentAmount l - (payouts.map Prod.snd).sum < l.lenders.length := by
  obtain ⟨hc, hact, hval, hdue, hl', hps, hex⟩ := repayLoan_ok h
  obtain ⟨hle, hpos, _, hfull, _, hnd, hsum, _⟩ := reaches_loanInv l hR
  have hF : 0 < l.fundedAmount := by
    have := hfull (Or.inl hact)
    omega
  subst hps
  have hmap : ((l.lenders.map fun a =>
        (a, l.lenderContributions a * calculateRepaymentAmount l / l.fundedAmount)).map
          Prod.snd)
      = l.lenders.map fun a =>
          l.lenderContributions a * calculateRepaymentAmount l / l.fundedAmount := by
    rw [List.map_map]
    rfl
  obtain ⟨hub, hlb⟩ := proportional_split_bounds l.lenders l.lenderContributions
      (calculateRepaymentAmount l) l.fundedAmount hF hsum
  have hne : l.lenders ≠ [] := by
    intro he
    rw [he] at hsum
    simp at hsum
    omega
  have hlb' := hlb hne
  refine ⟨rfl, ?_, ?_⟩
  · rw [hmap]
    exact hub
  · rw [hmap]
    omega

theorem repay_distribution_bounds_witness :
    ∃ l' payouts excess,
      repayLoan loanAF 7 (calculateRepaymentAmount loanAF) 0 = .ok (l', payouts, excess) ∧
      (payouts.map Prod.snd).sum ≤ calculateRepaymentAmount loanAF := by
  refine ⟨_, _, _, rfl, ?_⟩
  exact (repay_distribution_bounds loanAF 7 (calculateRepaymentAmount loanAF) 0 _ _ _
    loanAF_reached rfl).2.1

/-- C1 (counterexample): a loan of 0.03 ether at the minimum rate over
30 days, funded equally by three lenders, reaches `Active`; repaying exactly
`calculateRepaymentAmount` distributes one wei less than that amount — the
flooring in the per-lender division silently loses value, so the claimed
exact equality `sum(payouts) = calculateRepaymentAmount` is false. -/
theorem repay_distribution_loses_value :
    ∃ l0 l1 l2 l3 l4 payouts excess,
      createLoan 7 (3 * MIN_LOAN_AMOUNT) 5 MIN_DURATION ("seed") 0 = .ok l0 ∧
      fundLoan l0 11 MIN_LOAN_AMOUNT = .ok l1 ∧
      fundLoan l1 12 MIN_LOAN_AMOUNT = .ok l2 ∧
      fundLoan l2 13 MIN_LOAN_AMOUNT = .ok l3 ∧
      l3.status = .Active ∧
      repayLoan l3 7 (calculateRepaymentAmount l3) 0 = .ok (l4, payouts, excess) ∧
      (payouts.map Prod.snd).sum + 1 = calculateRepaymentAmount l3 := by
  refine ⟨_, _, _, _, _, _, _, rfl, rfl, rfl, rfl, rfl, rfl, ?_⟩
  decide

/-- C4: the interest formula uses the basis-points divisor
`365 days * 10000`, while the validated rate bounds `MIN_INTEREST_RATE = 5`
and `MAX_INTEREST_RATE = 50` are documented in the source as "5%" and "50%"
(and `createLoan`'s doc comment says "basis points, e.g., 1000 = 10%").
Evaluated at the failing input — a fully funded 1-ether loan at the minimum
validated rate over a full year — the code charges `5 * 10^14` wei
(0.05% of principal), not the five percent (`5 * 10^16`) its own rate
comment promises: the two conventions are mixed, not applied uniformly.
The preview/enforcement half of the claim does hold: `repayLoan` rejects
exactly the payments below `calculateRepaymentAmount`. -/
theorem interest_rate_convention_mismatch :
    ∃ l l',
      createLoan 7 (10 ^ 18) MIN_INTEREST_RATE SECONDS_PER_YEAR ("y") 0 = .ok l ∧
      fundLoan l 11 (10 ^ 18) = .ok l' ∧
      l'.status = .Active ∧
      calculateRepaymentAmount l' = 10 ^ 18 + 5 * 10 ^ 14 ∧
      MIN_INTEREST_RATE * 10 ^ 18 / 100 = 5 * 10 ^ 16 ∧
      5 * 10 ^ 14 ≠ MIN_INTEREST_RATE * 10 ^ 18 / 100 ∧
      repayLoan l' 7 (10 ^ 18) 0 = .error .InsufficientRepayment := by
  refine ⟨_, _, rfl, rfl, rfl, by decide, by decide, by decide, rfl⟩

end Loans

namespace Pools

open Loans (Addr)

/-- Errors raised by the `LenderPool` contract's `require` statements. -/
inductive PoolErr where
  | EmptyName
  | InvalidTarget
  | InvalidRate
  | NotActivePool
  | NonPositiveAmount
  | ExceedsTarget
  | InsufficientShares
  | Underflow
  | NotCreator
  | NoYield
  | EmptyPool
deriving DecidableEq, Repr

/-- The `struct Pool` from the `LenderPool` contract; the two mappings are total
functions defaulting to `0`. -/
structure Pool where
  id : Nat
  creator : Addr
  name : String
  description : String
  targetAmount : Nat
  currentAmount : Nat
  interestRate : Nat
  createdAt : Nat
  active : Bool
  lenders : List Addr
  lenderShares : Addr → Nat
  lenderYield : Addr → Nat

/-- Constant `MIN_POOL_AMOUNT = 1 ether`. -/
def MIN_POOL_AMOUNT : Nat := 10 ^ 18

/-- Constant `MAX_POOL_AMOUNT = 1000 ether`. -/
def MAX_POOL_AMOUNT : Nat := 1000 * 10 ^ 18

/-- Constant `MIN_INTEREST_RATE = 3` in `LenderPool`. -/
def MIN_INTEREST_RATE : Nat := 3

/-- Constant `MAX_INTEREST_RATE = 25` in `LenderPool`. -/
def MAX_INTEREST_RATE : Nat := 25

/-- Function `createPool` from `LenderPool`, lines 88-116. -/
def createPool (creator : Addr) (name description : String)
    (targetAmount interestRate now : Nat) : Except PoolErr Pool :=
  if name.length = 0 then .error .EmptyName
  else if ¬ (MIN_POOL_AMOUNT ≤ targetAmount ∧ targetAmount ≤ MAX_POOL_AMOUNT) then
    .error .InvalidTarget
  else if ¬ (MIN_INTEREST_RATE ≤ interestRate ∧ interestRate ≤ MAX_INTEREST_RATE) then
    .error .InvalidRate
  else
    .ok { id := 0
          creator := creator
          name := name
          description := description
          targetAmount := targetAmount
          currentAmount := 0
          interestRate := interestRate
          createdAt := now
          active := true
          lenders := []
          lenderShares := fun _ => 0
          lenderYield := fun _ => 0 }

/-- Function `addLiquidity` from `LenderPool`, lines 122-144 (`value` is `msg.value`). -/
def addLiquidity (p : Pool) (lender : Addr) (value : Nat) : Except PoolErr Pool :=
  if ¬ p.active then .error .NotActivePool
  else if value = 0 then .error .NonPositiveAmount
  else if p.targetAmount < p.currentAmount + value then .error .ExceedsTarget
  else
    .ok { p with
            currentAmount := p.currentAmount + value
            lenderShares := fun a =>
              if a = lender then p.lenderShares a + value else p.lenderShares a
            lenders := if lender ∈ p.lenders then p.lenders else p.lenders ++ [lender] }

/-- Function `removeLiquidity` from `LenderPool`, lines 151-161.  The second guard
models Solidity 0.8's checked subtraction `currentAmount -= amount`. -/
def removeLiquidity (p : Pool) (lender : Addr) (amount : Nat) : Except PoolErr Pool :=
  if p.lenderShares lender < amount then .error .InsufficientShares
  else if p.currentAmount < amount then .error .Underflow
  else
    .ok { p with
            currentAmount := p.currentAmount - amount
            lenderShares := fun a =>
              if a = lender then p.lenderShares a - amount else p.lenderShares a }

/-- Function `distributeYield` from `LenderPool`, lines 168-184.  Returns the updated
pool and the list of transfers made by the loop,
`(totalYield * lenderShare) / currentAmount` for each lender in order; the
accumulation into `lenderYield` is modelled by the same left fold the loop
performs. -/
def distributeYield (p : Pool) (caller : Addr) (totalYield : Nat) :
    Except PoolErr (Pool × List (Addr × Nat)) :=
  if caller ≠ p.creator then .error .NotCreator
  else if totalYield = 0 then .error .NoYield
  else if p.currentAmount = 0 then .error .EmptyPool
  else
    .ok ({ p with
             lenderYield := p.lenders.foldl (fun g x => fun a =>
               if a = x then g a + totalYield * p.lenderShares x / p.currentAmount
               else g a) p.lenderYield },
         p.lenders.map fun a => (a, totalYield * p.lenderShares a / p.currentAmount))

/-- Function `deactivatePool` from `LenderPool`, lines 274-276. -/
def deactivatePool (p : Pool) (caller : Addr) : Except PoolErr Pool :=
  if caller ≠ p.creator then .error .NotCreator
  else .ok { p with active := false }

/-- Pool states reachable through the contract's operations. -/
inductive PReaches : Pool → Prop where
  | created {creator name description target rate now p} :
      createPool creator name description target rate now = .ok p → PReaches p
  | added {p lender value p'} :
      PReaches p → addLiquidity p lender value = .ok p' → PReaches p'
  | removed {p lender amount p'} :
      PReaches p → removeLiquidity p lender amount = .ok p' → PReaches p'
  | distributed {p caller totalYield p' payouts} :
      PReaches p → distributeYield p caller totalYield = .ok (p', payouts) →
      PReaches p'
  | deactivated {p caller p'} :
      PReaches p → deactivatePool p caller = .ok p' → PReaches p'

/-- The inductive invariant maintained by every pool operation. -/
def PoolInv (p : Pool) : Prop :=
  p.lenders.Nodup ∧
  (p.lenders.map p.lenderShares).sum = p.currentAmount ∧
  (∀ a, a ∉ p.lenders → p.lenderShares a = 0) ∧
  p.currentAmount ≤ p.targetAmount

/-- Subtracting at a member of a duplicate-free list shifts the sum down by
exactly the subtracted value (which must fit in that member's entry). -/
theorem sum_map_sub_at_mem (xs : List Addr) (f : Addr → Nat) (a : Addr) (v : Nat)
    (hnd : xs.Nodup) (ha : a ∈ xs) (hv : v ≤ f a) :
    (xs.map fun x => if x = a then f x - v else f x).sum = (xs.map f).sum - v := by
  induction xs with
  | nil => cases ha
  | cons b xs ih =>
    rcases List.nodup_cons.mp hnd with ⟨hb, hnd'⟩
    rcases List.mem_cons.mp ha with rfl | ha'
    · have hmap : (xs.map fun x => if x = a then f x - v else f x) = xs.map f := by
        refine List.map_congr_left fun x hx => ?_
        have hxa : x ≠ a := fun e => hb (e ▸ hx)
        simp [hxa]
      simp only [List.map_cons, List.sum_cons, hmap, if_true]
      omega
    · have hba : b ≠ a := fun e => hb (e ▸ ha')
      simp only [List.map_cons, List.sum_cons, if_neg hba]
      have hfa : f a ≤ (xs.map f).sum := by
        refine List.single_le_sum (fun x _ => Nat.zero_le x) _ ?_
        exact List.mem_map_of_mem f ha'
      rw [ih hnd' ha']
      omega

/-- An entry of a list bounds nothing above the list's sum. -/
theorem mem_le_sum_map (xs : List Addr) (f : Addr → Nat) (a : Addr) (ha : a ∈ xs) :
    f a ≤ (xs.map f).sum :=
  List.single_le_sum (fun x _ => Nat.zero_le x) _ (List.mem_map_of_mem f ha)

/-- Invariant preservation: every reachable pool satisfies `PoolInv`. -/
theorem preaches_poolInv : ∀ p, PReaches p → PoolInv p := by
  intro p hp
  induction hp with
  | created h =>
    rename_i creator name description target rate now p
    unfold createPool at h
    split at h
    · cases h
    split at h
    · cases h
    split at h
    · cases h
    injection h with h
    subst h
    exact ⟨List.nodup_nil, rfl, fun a _ => rfl, Nat.zero_le _⟩
  | added hR h ih =>
    rename_i p lender value p'
    obtain ⟨hnd, hsum, hout, hle⟩ := ih
    unfold addLiquidity at h
    split at h
    · cases h
    split at h
    · cases h
    split at h
    · cases h
    rename_i hact hval hcap
    rw [Nat.not_lt] at hcap
    injection h with h
    subst h
    unfold PoolInv
    dsimp only
    by_cases hmem : lender ∈ p.lenders
    · rw [if_pos hmem]
      refine ⟨hnd, ?_, ?_, by omega⟩
      · rw [Loans.sum_map_add_at_mem p.lenders p.lenderShares lender value hnd hmem, hsum]
      · intro a ha
        have haa : a ≠ lender := fun e => ha (e ▸ hmem)
        rw [if_neg haa]
        exact hout a ha
    · rw [if_neg hmem]
      refine ⟨?_, ?_, ?_, by omega⟩
      · exact List.Nodup.append hnd (List.nodup_singleton _)
          (List.disjoint_singleton.mpr hmem)
      · rw [List.map_append, List.sum_append,
            Loans.map_add_at_not_mem p.lenders p.lenderShares lender value hmem, hsum]
        simp only [List.map_cons, List.map_nil, List.sum_cons, List.sum_nil, if_true]
        rw [hout lender hmem]
        omega
      · intro a ha
        rw [List.mem_append, not_or, List.mem_singleton] at ha
        rw [if_neg ha.2]
        exact hout a ha.1
  | removed hR h ih =>
    rename_i p lender amount p'
    obtain ⟨hnd, hsum, hout, hle⟩ := ih
    unfold removeLiquidity at h
    split at h
    · cases h
    split at h
    · cases h
    rename_i hsh hcur
    rw [Nat.not_lt] at hsh hcur
    injection h with h
    subst h
    unfold PoolInv
    dsimp only
    by_cases hmem : lender ∈ p.lenders
    · refine ⟨hnd, ?_, ?_, by omega⟩
      · rw [sum_map_sub_at_mem p.lenders p.lenderShares lender amount hnd hmem hsh, hsum]
      · intro a ha
        have haa : a ≠ lender := fun e => ha (e ▸ hmem)
        rw [if_neg haa]
        exact hout a ha
    · have hz : p.lenderShares lender = 0 := hout lender hmem
      have ha0 : amount = 0 := by omega
      subst ha0
      have hmap : (p.lenders.map fun x =>
          if x = lender then p.lenderShares x - 0 else p.lenderShares x)
          = p.lenders.map p.lenderShares := by
        refine List.map_congr_left fun x hx => ?_
        by_cases hxl : x = lender
        · rw [if_pos hxl]
          omega
        · rw [if_neg hxl]
      refine ⟨hnd, ?_, ?_, by omega⟩
      · rw [hmap, hsum]
        omega
      · intro a ha
        by_cases hal : a = lender
        · rw [if_pos hal, hal, hz]
        · rw [if_neg hal]
          exact hout a ha
  | distributed hR h ih =>
    rename_i p caller totalYield p' payouts
    obtain ⟨hnd, hsum, hout, hle⟩ := ih
    unfold distributeYield at h
    split at h
    · cases h
    split at h
    · cases h
    split at h
    · cases h
    injection h with h
    injection h with h hp2
    subst h
    exact ⟨hnd, hsum, hout, hle⟩
  | deactivated hR h ih =>
    rename_i p caller p'
    obtain ⟨hnd, hsum, hout, hle⟩ := ih
    unfold deactivatePool at h
    split at h
    · cases h
    injection h with h
    subst h
    exact ⟨hnd, hsum, hout, hle⟩

/-- Inversion for `distributeYield`: the guards, the payout list, and the
updated pool. -/
theorem distributeYield_ok {p : Pool} {caller totalYield : Nat} {p' : Pool}
    {payouts : List (Addr × Nat)}
    (h : distributeYield p caller totalYield = .ok (p', payouts)) :
    caller = p.creator ∧ 0 < totalYield ∧ 0 < p.currentAmount ∧
    payouts = (p.lenders.map fun a =>
      (a, totalYield * p.lenderShares a / p.currentAmount)) ∧
    p' = { p with
             lenderYield := p.lenders.foldl (fun g x => fun a =>
               if a = x then g a + totalYield * p.lenderShares x / p.currentAmount
               else g a) p.lenderYield } := by
  unfold distributeYield at h
  split at h
  · cases h
  split at h
  · cases h
  split at h
  · cases h
  rename_i h1 h2 h3
  rw [not_not] at h1
  injection h with h
  injection h with ha hb
  exact ⟨h1, Nat.pos_of_ne_zero h2, Nat.pos_of_ne_zero h3, hb.symm, ha.symm⟩

/-- Evaluation of `distributeYield` on a pool when all three guards pass. -/
theorem distributeYield_unfold (p : Pool) (caller totalYield : Nat)
    (hc : caller = p.creator) (hy : totalYield ≠ 0) (hcur : p.currentAmount ≠ 0) :
    distributeYield p caller totalYield = .ok
      ({ p with lenderYield := p.lenders.foldl (fun g x => fun a =>
           if a = x then g a + totalYield * p.lenderShares x / p.currentAmount
           else g a) p.lenderYield },
       p.lenders.map fun a => (a, totalYield * p.lenderShares a / p.currentAmount)) := by
  unfold distributeYield
  rw [if_neg (not_not.mpr hc), if_neg hy, if_neg hcur]

/-- C9 (amended): on every reachable pool a successful `distributeYield`
pays each contributor `⌊totalYield * share / currentAmount⌋`; the payouts sum
to at most `totalYield` and the shortfall is smaller than the number of
contributors, but the shortfall is not redistributed or recorded anywhere —
the loop has no remainder policy, so the remainder silently stays with the
contract (see the counterexample). -/
theorem yield_distribution_bounds (p : Pool) (caller totalYield : Nat)
    (p' : Pool) (payouts : List (Addr × Nat))
    (hR : PReaches p)
    (h : distributeYield p caller totalYield = .ok (p', payouts)) :
    payouts = (p.lenders.map fun a =>
      (a, totalYield * p.lenderShares a / p.currentAmount)) ∧
    (payouts.map Prod.snd).sum ≤ totalYield ∧
    totalYield - (payouts.map Prod.snd).sum < p.lenders.length := by
  obtain ⟨hc, hy, hcur, hps, hp'⟩ := distributeYield_ok h
  obtain ⟨hnd, hsum, hout, hle⟩ := preaches_poolInv p hR
  subst hps
  have hmap1 : ((p.lenders.map fun a =>
        (a, totalYield * p.lenderShares a / p.currentAmount)).map Prod.snd)
      = p.lenders.map fun a => totalYield * p.lenderShares a / p.currentAmount := by
    rw [List.map_map]
    rfl
  have hmap2 : (p.lenders.map fun a => totalYield * p.lenderShares a / p.currentAmount)
      = p.lenders.map fun a => p.lenderShares a * totalYield / p.currentAmount := by
    refine List.map_congr_left fun a _ => ?_
    rw [Nat.mul_comm]
  obtain ⟨hub, hlb⟩ := Loans.proportional_split_bounds p.lenders p.lenderShares
      totalYield p.currentAmount hcur hsum
  have hne : p.lenders ≠ [] := by
    intro he
    rw [he] at hsum
    simp at hsum
    omega
  have hlb' := hlb hne
  refine ⟨rfl, ?_, ?_⟩
  · rw [hmap1, hmap2]
    exact hub
  · rw [hmap1, hmap2]
    omega

/-- An empty pool at the minimum target, created by user 5. -/
def poolT : Pool :=
  { id := 0, creator := 5, name := "n", description := "d",
    targetAmount := MIN_POOL_AMOUNT, currentAmount := 0, interestRate := 3,
    createdAt := 0, active := true, lenders := [],
    lenderShares := fun _ => 0, lenderYield := fun _ => 0 }

theorem poolT_eq : createPool 5 ("n") ("d") MIN_POOL_AMOUNT 3 0 = .ok poolT := rfl

theorem poolT_reached : PReaches poolT := PReaches.created poolT_eq

/-- Pool `poolT` after contributor 21 adds 300. -/
def poolTA : Pool :=
  { id := 0, creator := 5, name := "n", description := "d",
    targetAmount := MIN_POOL_AMOUNT, currentAmount := 0 + 300, interestRate := 3,
    createdAt := 0, active := true, lenders := [21],
    lenderShares := fun a => if a = 21 then 0 + 300 else 0,
    lenderYield := fun _ => 0 }

theorem poolTA_eq : addLiquidity poolT 21 300 = .ok poolTA := rfl

/-- Pool `poolTA` after contributor 22 also adds 300: the pool of spec
scenario 4 (two contributors of 300 each, 600 held). -/
def poolTAB : Pool :=
  { id := 0, creator := 5, name := "n", description := "d",
    targetAmount := MIN_POOL_AMOUNT, currentAmount := 0 + 300 + 300,
    interestRate := 3, createdAt := 0, active := true, lenders := [21, 22],
    lenderShares := fun a =>
      if a = 22 then (if a = 21 then 0 + 300 else 0) + 300
      else (if a = 21 then 0 + 300 else 0),
    lenderYield := fun _ => 0 }

theorem poolTAB_eq : addLiquidity poolTA 22 300 = .ok poolTAB := rfl

theorem poolTAB_reached : PReaches poolTAB :=
  PReaches.added (PReaches.added poolT_reached poolTA_eq) poolTAB_eq

theorem yield_distribution_bounds_witness :
    ∃ p' payouts, distributeYield poolTAB 5 100 = .ok (p', payouts) ∧
      (payouts.map Prod.snd).sum ≤ 100 ∧
      payouts = [(21, 50), (22, 50)] := by
  refine ⟨_, _, rfl, ?_, by decide⟩
  exact (yield_distribution_bounds poolTAB 5 100 _ _ poolTAB_reached rfl).2.1

/-- C9 (counterexample): three contributors of 1 wei each; distributing a
yield of 100 pays 33 to each, the transfers and the recorded yield totals
both sum to 99, and the remaining 1 is not credited to anyone — the claimed
"deterministic remainder policy rather than silently discarded" does not
exist in the code. -/
theorem yield_remainder_discarded :
    ∃ q0 q1 q2 q3 q4 payouts,
      createPool 5 ("n") ("d") MIN_POOL_AMOUNT 3 0 = .ok q0 ∧
      addLiquidity q0 21 1 = .ok q1 ∧
      addLiquidity q1 22 1 = .ok q2 ∧
      addLiquidity q2 23 1 = .ok q3 ∧
      distributeYield q3 5 100 = .ok (q4, payouts) ∧
      (payouts.map Prod.snd).sum = 99 ∧
      q4.lenderYield 21 + q4.lenderYield 22 + q4.lenderYield 23 = 99 ∧
      ¬ (payouts.map Prod.snd).sum = 100 := by
  refine ⟨_, _, _, _, _, _, rfl, rfl, rfl, rfl, rfl, by decide, by decide, by decide⟩

/-- C10: a successful `distributeYield` changes only the accumulated
`lenderYield` totals — `currentAmount`, every share, the contributor list,
the `active` flag (and the target and creator) are unchanged; the `active`
flag is never consulted, so the call succeeds identically on an inactive
pool; and an immediate second call with the same `totalYield` produces the
same payout list on the same share basis. -/
theorem distributeYield_frame (p : Pool) (caller totalYield : Nat)
    (p' : Pool) (payouts : List (Addr × Nat))
    (h : distributeYield p caller totalYield = .ok (p', payouts)) :
    p'.currentAmount = p.currentAmount ∧
    p'.lenderShares = p.lenderShares ∧
    p'.lenders = p.lenders ∧
    p'.active = p.active ∧
    p'.targetAmount = p.targetAmount ∧
    p'.creator = p.creator ∧
    (∀ b, ∃ q payouts2,
      distributeYield { p with active := b } caller totalYield = .ok (q, payouts2) ∧
      payouts2 = payouts) ∧
    (∃ q payouts2, distributeYield p' caller totalYield = .ok (q, payouts2) ∧
      payouts2 = payouts) := by
  obtain ⟨hc, hy, hcur, hps, hp'⟩ := distributeYield_ok h
  have hy' : totalYield ≠ 0 := by omega
  have hcur' : p.currentAmount ≠ 0 := by omega
  subst hps
  subst hp'
  refine ⟨rfl, rfl, rfl, rfl, rfl, rfl, ?_, ?_⟩
  · intro b
    exact ⟨_, _, distributeYield_unfold { p with active := b } caller totalYield hc
      hy' hcur', rfl⟩
  · have h2 := distributeYield_unfold
      { p with lenderYield := p.lenders.foldl (fun g x => fun a =>
          if a = x then g a + totalYield * p.lenderShares x / p.currentAmount
          else g a) p.lenderYield } caller totalYield hc hy' hcur'
    exact ⟨_, _, h2, rfl⟩

theorem distributeYield_frame_witness :
    ∃ p' payouts, distributeYield poolTAB 5 100 = .ok (p', payouts) ∧
      p'.currentAmount = poolTAB.currentAmount ∧ p'.active = poolTAB.active := by
  refine ⟨_, _, rfl, ?_, ?_⟩
  · exact (distributeYield_frame poolTAB 5 100 _ _ rfl).1
  · exact (distributeYield_frame poolTAB 5 100 _ _ rfl).2.2.2.1

end Pools

namespace Reputation

/-- The `enum TrustLevel` from `Reputation.sol`. -/
inductive TrustLevel where
  | New
  | Basic
  | Good
  | Excellent
  | Premium
deriving DecidableEq, Repr

/-- The `struct UserReputation` from `Reputation.sol`; the `categoryScores`
mapping is a total function defaulting to `0`. -/
structure UserReputation where
  score : Nat
  totalLoans : Nat
  successfulLoans : Nat
  defaultedLoans : Nat
  totalLent : Nat
  totalBorrowed : Nat
  lastUpdated : Nat
  trustLevel : TrustLevel
  categoryScores : String → Nat

/-- Constant `MAX_SCORE = 2000`. -/
def MAX_SCORE : Nat := 2000

/-- Constant `MIN_SCORE = 0`. -/
def MIN_SCORE : Nat := 0

/-- Constant `SUCCESSFUL_LOAN_POINTS = 50`. -/
def SUCCESSFUL_LOAN_POINTS : Nat := 50

/-- Constant `DEFAULT_PENALTY = 100`. -/
def DEFAULT_PENALTY : Nat := 100

/-- Constant `ON_TIME_REPAYMENT_BONUS = 25`. -/
def ON_TIME_REPAYMENT_BONUS : Nat := 25

/-- Constant `EARLY_REPAYMENT_BONUS = 10`. -/
def EARLY_REPAYMENT_BONUS : Nat := 10

/-- Constant `LENDING_POINTS = 30`. -/
def LENDING_POINTS : Nat := 30

/-- Constant `REFERRAL_POINTS = 20`. -/
def REFERRAL_POINTS : Nat := 20

/-- Function `registerUser` from `Reputation.sol`, lines 72-84: a fresh record with
starting score 100 and trust level `New`. -/
def registerUser (now : Nat) : UserReputation :=
  { score := 100, totalLoans := 0, successfulLoans := 0, defaultedLoans := 0,
    totalLent := 0, totalBorrowed := 0, lastUpdated := now,
    trustLevel := .New, categoryScores := fun _ => 0 }

/-- The threshold cascade of `_updateTrustLevel` (`Reputation.sol`,
lines 299-313), as a pure function of the score. -/
def trustLevelFor (score : Nat) : TrustLevel :=
  if 1000 ≤ score then .Premium
  else if 601 ≤ score then .Excellent
  else if 301 ≤ score then .Good
  else if 101 ≤ score then .Basic
  else .New

/-- Function `_updateTrustLevel` from `Reputation.sol`, lines 299-319: recomputes the
level from the (already updated) score, stores it if it changed and reports
whether a `TrustLevelChanged` event was emitted. -/
def updateTrustLevel (r : UserReputation) : UserReputation × Bool :=
  if trustLevelFor r.score ≠ r.trustLevel then
    ({ r with trustLevel := trustLevelFor r.score }, true)
  else (r, false)

/-- Function `updateReputationOnRepayment` from `Reputation.sol`, lines 93-122. -/
def updateReputationOnRepayment (r : UserReputation) (loanAmount : Nat)
    (wasOnTime wasEarly : Bool) (now : Nat) : UserReputation × Bool :=
  updateTrustLevel
    { r with successfulLoans := r.successfulLoans + 1
             totalLoans := r.totalLoans + 1
             totalBorrowed := r.totalBorrowed + loanAmount
             score := min (r.score + (SUCCESSFUL_LOAN_POINTS
               + (if wasOnTime then ON_TIME_REPAYMENT_BONUS else 0)
               + (if wasEarly then EARLY_REPAYMENT_BONUS else 0))) MAX_SCORE
             lastUpdated := now }

/-- Function `updateReputationOnDefault` from `Reputation.sol`, lines 129-147.
Solidity 0.8 checked arithmetic: `reputation.score - penalty` reverts when
`score < penalty`, before `_max(..., MIN_SCORE)` can clamp anything, so the
whole call returns `none` in that case. -/
def updateReputationOnDefault (r : UserReputation) (loanAmount now : Nat) :
    Option (UserReputation × Bool) :=
  if r.score < DEFAULT_PENALTY then none
  else
    some (updateTrustLevel
      { r with defaultedLoans := r.defaultedLoans + 1
               totalLoans := r.totalLoans + 1
               totalBorrowed := r.totalBorrowed + loanAmount
               score := max (r.score - DEFAULT_PENALTY) MIN_SCORE
               lastUpdated := now })

/-- Function `updateReputationOnLending` from `Reputation.sol`, lines 154-170. -/
def updateReputationOnLending (r : UserReputation) (loanAmount now : Nat) :
    UserReputation × Bool :=
  updateTrustLevel
    { r with totalLent := r.totalLent + loanAmount
             score := min (r.score + LENDING_POINTS) MAX_SCORE
             lastUpdated := now }

/-- Function `updateReputationOnReferral` from `Reputation.sol`, lines 177-191. -/
def updateReputationOnReferral (r : UserReputation) (now : Nat) :
    UserReputation × Bool :=
  updateTrustLevel
    { r with score := min (r.score + REFERRAL_POINTS) MAX_SCORE
             lastUpdated := now }

/-- Function `updateCategoryScore` from `Reputation.sol`, lines 199-221; both
subtractions for negative points are checked and revert on underflow. -/
def updateCategoryScore (r : UserReputation) (category : String) (points : Int)
    (now : Nat) : Option (UserReputation × Bool) :=
  if 0 < points then
    some (updateTrustLevel
      { r with categoryScores := fun c =>
                 if c = category then r.categoryScores c + points.toNat
                 else r.categoryScores c
               score := min (r.score + points.toNat) MAX_SCORE
               lastUpdated := now })
  else
    if r.categoryScores category < (-points).toNat then none
    else if r.score < (-points).toNat then none
    else
      some (updateTrustLevel
        { r with categoryScores := fun c =>
                   if c = category then max (r.categoryScores c - (-points).toNat) 0
                   else r.categoryScores c
                 score := max (r.score - (-points).toNat) MIN_SCORE
                 lastUpdated := now })

/-- What `_updateTrustLevel` guarantees: the stored level becomes the pure
function of the score, the score is untouched, and the event fires exactly
when the level changed. -/
theorem updateTrustLevel_spec (r : UserReputation) :
    (updateTrustLevel r).1.trustLevel = trustLevelFor r.score ∧
    (updateTrustLevel r).1.score = r.score ∧
    ((updateTrustLevel r).2 = true ↔ trustLevelFor r.score ≠ r.trustLevel) := by
  unfold updateTrustLevel
  by_cases hc : trustLevelFor r.score ≠ r.trustLevel
  · rw [if_pos hc]
    exact ⟨rfl, rfl, fun _ => hc, fun _ => rfl⟩
  · rw [if_neg hc]
    rw [not_not] at hc
    exact ⟨hc.symm, rfl, fun h => absurd h Bool.false_ne_true,
      fun hn => absurd hc hn⟩

/-- Every mutator that feeds a record `R` (with the caller's previous trust
level) through `updateTrustLevel` yields a stored level that is the pure
function of the final score, and an event exactly on change. -/
theorem mutator_tier {r R r' : UserReputation} {ev : Bool}
    (h : updateTrustLevel R = (r', ev))
    (hTL : R.trustLevel = r.trustLevel) :
    r'.trustLevel = trustLevelFor r'.score ∧
    (ev = true ↔ trustLevelFor r'.score ≠ r.trustLevel) := by
  obtain ⟨hs1, hs2, hs3⟩ := updateTrustLevel_spec R
  have h1 : (updateTrustLevel R).1 = r' := congrArg Prod.fst h
  have h2 : (updateTrustLevel R).2 = ev := congrArg Prod.snd h
  rw [← h1, ← h2, hs2, hs1]
  exact ⟨rfl, by rw [hTL] at hs3; exact hs3⟩

/-- C7: the claim says a default applied to a user whose score is below
the penalty clamps the score to 0 and never fails.  The code disagrees: a
registered user defaults once (score 100 → 0, fine), and a second default
hits Solidity 0.8's checked subtraction `score - DEFAULT_PENALTY`, which
reverts before `_max(..., MIN_SCORE)` can clamp — the `_max` is dead code
whenever it would matter.  This theorem evaluates the code at that failing
input. -/
theorem default_underflow_reverts :
    ∃ r1 ev, updateReputationOnDefault (registerUser 0) 5 1 = some (r1, ev) ∧
      r1.score = 0 ∧
      r1.score < DEFAULT_PENALTY ∧
      updateReputationOnDefault r1 5 2 = none := by
  refine ⟨_, _, rfl, rfl, by decide, rfl⟩

/-- C8 (counterexample): the claim places a score of exactly 1000 in the
`Excellent` tier (`Premium ≥ 1001`); `_updateTrustLevel` tests
`newScore >= 1000` first, so 1000 is `Premium`. -/
theorem score_1000_is_premium :
    trustLevelFor 1000 = TrustLevel.Premium ∧
    TrustLevel.Premium ≠ TrustLevel.Excellent := by
  decide

/-- C8 (amended): the trust tier is the pure function of the score with
thresholds New < 101, Basic < 301, Good < 601, Excellent < 1000 and
Premium ≥ 1000 (a score of exactly 1000 is Premium, not Excellent), and
every score mutation re-derives the tier, stores it, and emits a tier-change
event exactly when the derived tier differs from the previous one. -/
theorem trust_tier_thresholds :
    (∀ s : Nat,
      (trustLevelFor s = .New ↔ s < 101) ∧
      (trustLevelFor s = .Basic ↔ 101 ≤ s ∧ s < 301) ∧
      (trustLevelFor s = .Good ↔ 301 ≤ s ∧ s < 601) ∧
      (trustLevelFor s = .Excellent ↔ 601 ≤ s ∧ s < 1000) ∧
      (trustLevelFor s = .Premium ↔ 1000 ≤ s)) ∧
    (∀ r loanAmount wasOnTime wasEarly now r' ev,
      updateReputationOnRepayment r loanAmount wasOnTime wasEarly now = (r', ev) →
      r'.trustLevel = trustLevelFor r'.score ∧
      (ev = true ↔ trustLevelFor r'.score ≠ r.trustLevel)) ∧
    (∀ r loanAmount now r' ev,
      updateReputationOnDefault r loanAmount now = some (r', ev) →
      r'.trustLevel = trustLevelFor r'.score ∧
      (ev = true ↔ trustLevelFor r'.score ≠ r.trustLevel)) ∧
    (∀ r loanAmount now r' ev,
      updateReputationOnLending r loanAmount now = (r', ev) →
      r'.trustLevel = trustLevelFor r'.score ∧
      (ev = true ↔ trustLevelFor r'.score ≠ r.trustLevel)) ∧
    (∀ r now r' ev,
      updateReputationOnReferral r now = (r', ev) →
      r'.trustLevel = trustLevelFor r'.score ∧
      (ev = true ↔ trustLevelFor r'.score ≠ r.trustLevel)) ∧
    (∀ r category points now r' ev,
      updateCategoryScore r category points now = some (r', ev) →
      r'.trustLevel = trustLevelFor r'.score ∧
      (ev = true ↔ trustLevelFor r'.score ≠ r.trustLevel)) := by
  refine ⟨?_, ?_, ?_, ?_, ?_, ?_⟩
  · intro s
    unfold trustLevelFor
    split_ifs with h1 h2 h3 h4 <;>
      refine ⟨⟨fun hx => ?_, fun hx => ?_⟩, ⟨fun hx => ?_, fun hx => ?_⟩,
        ⟨fun hx => ?_, fun hx => ?_⟩, ⟨fun hx => ?_, fun hx => ?_⟩,
        ⟨fun hx => ?_, fun hx => ?_⟩⟩ <;>
      first
        | rfl
        | omega
        | (cases hx)
  · intro r loanAmount wasOnTime wasEarly now r' ev h
    exact mutator_tier h rfl
  · intro r loanAmount now r' ev h
    unfold updateReputationOnDefault at h
    split at h
    · cases h
    injection h with h
    exact mutator_tier h rfl
  · intro r loanAmount now r' ev h
    exact mutator_tier h rfl
  · intro r now r' ev h
    exact mutator_tier h rfl
  · intro r category points now r' ev h
    unfold updateCategoryScore at h
    split at h
    · injection h with h
      exact mutator_tier h rfl
    · split at h
      · cases h
      split at h
      · cases h
      injection h with h
      exact mutator_tier h rfl

theorem trust_tier_thresholds_witness :
    ∃ r' ev, updateReputationOnRepayment (registerUser 0) 5 true false 1 = (r', ev) ∧
      r'.trustLevel = trustLevelFor r'.score := by
  refine ⟨_, _, rfl, ?_⟩
  exact (trust_tier_thresholds.2.1 (registerUser 0) 5 true false 1 _ _ rfl).1

end Reputation

namespace Server

open Loans (Addr)

/-- Error kinds returned by the Express loan controllers (the HTTP
`error`/`message` payloads of the source). -/
inductive SrvErr where
  | PermissionDenied
  | InvalidState
  | CannotFundOwn
deriving DecidableEq, Repr

/-- The Firestore `Loan` document (src/server `models`, `class Loan`),
restricted to the fields the funding/cancellation paths read or write;
`status` is the source's string field. -/
structure SLoan where
  id : Nat
  borrowerId : Addr
  amount : Nat
  fundedAmount : Nat
  status : String
  isActive : Bool
  lenders : List Addr
  lenderContributions : Addr → Nat

/-- Method `Loan.prototype.fundLoan` from the Firestore model (lines 548-583):
no guards of its own; upserts the lender, adds the amount, and flips
`status` to `"active"` exactly when `fundedAmount` reaches `amount`. -/
def modelFundLoan (l : SLoan) (lenderId : Addr) (amount : Nat) : SLoan :=
  { l with
      lenders := if lenderId ∈ l.lenders then l.lenders else l.lenders ++ [lenderId]
      lenderContributions := fun a =>
        if a = lenderId then l.lenderContributions a + amount
        else l.lenderContributions a
      fundedAmount := l.fundedAmount + amount
      status := if l.amount ≤ l.fundedAmount + amount then "active" else l.status }

/-- The `fundLoan` controller (src/unnamed/part_006, lines 968-1024): rejects
non-pending loans, self-funding and unverified funders, then applies the
model update.  `userCanFund` stands for `user.canFundLoan()`. -/
def ctrlFundLoan (l : SLoan) (userId : Addr) (userCanFund : Bool) (amount : Nat) :
    Except SrvErr SLoan :=
  if l.status ≠ "pending" then .error .InvalidState
  else if l.borrowerId = userId then .error .CannotFundOwn
  else if ¬ userCanFund then .error .PermissionDenied
  else .ok (modelFundLoan l userId amount)

/-- The `cancelLoan` controller (src/unnamed/part_006, lines 1124-1156):
only the borrower, only while `status` is `"pending"`; it never looks at
`fundedAmount`. -/
def ctrlCancelLoan (l : SLoan) (userId : Addr) : Except SrvErr SLoan :=
  if l.borrowerId ≠ userId then .error .PermissionDenied
  else if l.status ≠ "pending" then .error .InvalidState
  else .ok { l with status := "cancelled", isActive := false }

/-- A fresh pending server-side loan for 100 units requested by user 7. -/
def sLoan0 : SLoan :=
  { id := 0, borrowerId := 7, amount := 100, fundedAmount := 0,
    status := "pending", isActive := true, lenders := [],
    lenderContributions := fun _ => 0 }

/-- C5 (counterexample): lender 11 funds 50 of the 100-unit pending loan
through the controller path; the loan is still `"pending"` with
`fundedAmount = 50 > 0`, and the borrower's `cancelLoan` then SUCCEEDS —
the controller checks only the status string, never `fundedAmount`, so
cancellation after partial funding is not rejected with `InvalidState` as
claimed. -/
theorem cancel_partially_funded_succeeds :
    ∃ l1 l2,
      ctrlFundLoan sLoan0 11 true 50 = .ok l1 ∧
      l1.fundedAmount = 50 ∧
      0 < l1.fundedAmount ∧
      l1.status = "pending" ∧
      ctrlCancelLoan l1 7 = .ok l2 ∧
      l2.status = "cancelled" := by
  refine ⟨_, _, rfl, rfl, by decide, rfl, rfl, rfl⟩

/-- C5 (amended): `cancelLoan` succeeds exactly when the caller is the
borrower and the status is `"pending"`, regardless of `fundedAmount`; in
particular a partially funded pending loan can still be cancelled.  Only
full funding blocks cancellation, because the model's `fundLoan` flips the
status to `"active"` exactly at `fundedAmount ≥ amount`, and any non-pending
status is rejected with `InvalidState`. -/
theorem cancelLoan_pending_only (l : SLoan) (userId : Addr) :
    (∀ l', ctrlCancelLoan l userId = .ok l' →
      l.borrowerId = userId ∧ l.status = "pending" ∧
      l' = { l with status := "cancelled", isActive := false }) ∧
    (l.borrowerId = userId → l.status = "pending" →
      ctrlCancelLoan l userId = .ok { l with status := "cancelled", isActive := false }) ∧
    (l.borrowerId = userId → l.status ≠ "pending" →
      ctrlCancelLoan l userId = .error .InvalidState) ∧
    (l.borrowerId ≠ userId → ctrlCancelLoan l userId = .error .PermissionDenied) ∧
    (∀ lender amount, l.amount ≤ l.fundedAmount + amount →
      (modelFundLoan l lender amount).status = "active") := by
  refine ⟨?_, ?_, ?_, ?_, ?_⟩
  · intro l' h
    unfold ctrlCancelLoan at h
    split at h
    · cases h
    split at h
    · cases h
    rename_i h1 h2
    rw [not_not] at h1 h2
    injection h with h
    exact ⟨h1, h2, h.symm⟩
  · intro h1 h2
    unfold ctrlCancelLoan
    rw [if_neg (not_not.mpr h1), if_neg (not_not.mpr h2)]
  · intro h1 h2
    unfold ctrlCancelLoan
    rw [if_neg (not_not.mpr h1), if_pos h2]
  · intro h1
    unfold ctrlCancelLoan
    rw [if_pos h1]
  · intro lender amount h
    unfold modelFundLoan
    dsimp only
    rw [if_pos h]

theorem cancelLoan_pending_only_witness :
    ctrlCancelLoan { sLoan0 with status := "active" } 7 = .error .InvalidState ∧
    ctrlCancelLoan sLoan0 3 = .error .PermissionDenied :=
  ⟨(cancelLoan_pending_only { sLoan0 with status := "active" } 7).2.2.1 rfl (by decide),
   (cancelLoan_pending_only sLoan0 3).2.2.2.1 (by decide)⟩

end Server

namespace Backend

/-- Error kinds thrown by `loanService.repayLoan`
(src/backend/src/services/loanService.ts, lines 89-135). -/
inductive BErr where
  | AlreadyRepaid
  | InsufficientRepayment
deriving DecidableEq, Repr

/-- The backend in-memory `Loan` (fields read or written by
`loanService.repayLoan`); JS numbers are modelled as `ℚ`, timestamps as
millisecond `Nat`s. -/
structure BLoan where
  borrowerId : Nat
  poolId : Nat
  amount : ℚ
  principalRemaining : ℚ
  status : String
  interestRate : ℚ
  createdAt : Nat
  dueDate : Nat
  repaidAt : Option Nat

/-- Function `calculateInterest` from src/backend/src/utils/helpers.ts:
`(principal * rate * days) / (100 * 365)`. -/
def calculateInterest (principal rate : ℚ) (days : Nat) : ℚ :=
  principal * rate * (days : ℚ) / (100 * 365)

/-- Function `loanService.repayLoan` (loanService.ts lines 89-135): rejects only
already-repaid loans and insufficient amounts — it never reads `dueDate`.
`daysElapsed = ⌊(now - createdAt) / 86400000⌋` as in the source.  Returns
the updated loan, the interest and the principal paid. -/
def svcRepayLoan (l : BLoan) (repayAmount : ℚ) (now : Nat) :
    Except BErr (BLoan × ℚ × ℚ) :=
  if l.status = "repaid" then .error .AlreadyRepaid
  else if repayAmount <
      l.principalRemaining
        + calculateInterest l.amount l.interestRate ((now - l.createdAt) / 86400000) then
    .error .InsufficientRepayment
  else
    .ok ({ l with principalRemaining := 0, status := "repaid", repaidAt := some now },
         calculateInterest l.amount l.interestRate ((now - l.createdAt) / 86400000),
         l.principalRemaining)

/-- A backend loan of 36500 at rate 10 with a one-day term, created at epoch
0; at every input used on it below, IEEE double arithmetic is exact, so the
`ℚ` model agrees with the JS source. -/
def bLoanLate : BLoan :=
  { borrowerId := 7, poolId := 1, amount := 36500, principalRemaining := 36500,
    status := "active", interestRate := 10, createdAt := 0,
    dueDate := 86400000, repaidAt := none }

/-- C6 (counterexample): two days after creation — strictly past the
one-day due date — the backend `repayLoan` ACCEPTS the repayment (36500
principal + 20 interest for 2 elapsed days) and marks the loan repaid: the
service has no due-date check at all, so the claim that every late
`RepayLoan` fails with `LoanExpired` is false for this implementation. -/
theorem backend_late_repay_accepted :
    ∃ l' interest principalPaid,
      svcRepayLoan bLoanLate 36520 172800000 = .ok (l', interest, principalPaid) ∧
      bLoanLate.dueDate < 172800000 ∧
      l'.status = "repaid" ∧
      interest = 20 := by
  have hdays : (172800000 - bLoanLate.createdAt) / 86400000 = 2 := by decide
  have hint : calculateInterest bLoanLate.amount bLoanLate.interestRate
      ((172800000 - bLoanLate.createdAt) / 86400000) = 20 := by
    rw [hdays]
    norm_num [calculateInterest, bLoanLate]
  have hs : ¬ (bLoanLate.status = "repaid") := by decide
  have hguard : ¬ ((36520 : ℚ) <
      bLoanLate.principalRemaining + calculateInterest bLoanLate.amount
        bLoanLate.interestRate ((172800000 - bLoanLate.createdAt) / 86400000)) := by
    rw [hint]
    norm_num [bLoanLate]
  have heq : svcRepayLoan bLoanLate 36520 172800000 = .ok
      ({ bLoanLate with
           principalRemaining := 0
           status := "repaid"
           repaidAt := some 172800000 },
       calculateInterest bLoanLate.amount bLoanLate.interestRate
         ((172800000 - bLoanLate.createdAt) / 86400000),
       bLoanLate.principalRemaining) := by
    unfold svcRepayLoan
    rw [if_neg hs, if_neg hguard]
  exact ⟨_, _, _, heq, by decide, rfl, hint⟩

/-- C6 (amended): the on-chain `repayLoan` does reject a call strictly
after the due date with `LoanExpired` whenever the payment would otherwise
be sufficient (leaving the loan unchanged, since the guard aborts before any
mutation); the backend `loanService.repayLoan`, however, never consults the
due date: any non-repaid loan with a sufficient payment is repaid, late or
not. -/
theorem contract_blocks_late_repay :
    (∀ (l : Loans.Loan) caller value now,
      l.status = .Active → caller = l.borrower →
      Loans.calculateRepaymentAmount l ≤ value → l.dueDate < now →
      Loans.repayLoan l caller value now = .error .LoanExpired) ∧
    (∀ (l : BLoan) repayAmount now,
      l.status ≠ "repaid" →
      l.principalRemaining
          + calculateInterest l.amount l.interestRate ((now - l.createdAt) / 86400000)
        ≤ repayAmount →
      ∃ l' interest principalPaid,
        svcRepayLoan l repayAmount now = .ok (l', interest, principalPaid) ∧
        l'.status = "repaid") := by
  constructor
  · intro l caller value now hact hc hval hdue
    unfold Loans.repayLoan
    rw [if_neg (not_not.mpr hc), if_neg (not_not.mpr hact),
        if_neg (Nat.not_lt.mpr hval), if_pos hdue]
  · intro l repayAmount now hst hge
    have heq : svcRepayLoan l repayAmount now = .ok
        ({ l with principalRemaining := 0, status := "repaid", repaidAt := some now },
         calculateInterest l.amount l.interestRate ((now - l.createdAt) / 86400000),
         l.principalRemaining) := by
      unfold svcRepayLoan
      rw [if_neg hst, if_neg (not_lt.mpr hge)]
    exact ⟨_, _, _, heq, rfl⟩

theorem contract_blocks_late_repay_witness :
    Loans.repayLoan Loans.loanAF 7 (Loans.calculateRepaymentAmount Loans.loanAF)
      (Loans.MIN_DURATION + 1) = .error .LoanExpired ∧
    (∃ l' interest principalPaid,
      svcRepayLoan bLoanLate 36520 172800000 = .ok (l', interest, principalPaid)) := by
  constructor
  · exact contract_blocks_late_repay.1 Loans.loanAF 7 _ _ rfl rfl le_rfl (by decide)
  · have hdays : (172800000 - bLoanLate.createdAt) / 86400000 = 2 := by decide
    have hge : bLoanLate.principalRemaining + calculateInterest bLoanLate.amount
        bLoanLate.interestRate ((172800000 - bLoanLate.createdAt) / 86400000)
        ≤ (36520 : ℚ) := by
      rw [hdays]
      norm_num [calculateInterest, bLoanLate]
    obtain ⟨l', i, pp, h, _⟩ := contract_blocks_late_repay.2 bLoanLate 36520 172800000
      (by decide) hge
    exact ⟨l', i, pp, h⟩

end Backend

end AfriLend
